import Mathlib

set_option maxHeartbeats 1000000

/- Verification of the toy-rt path tracer.  The development has two layers:
   namespace RT embeds the binary crate (src/src), whose Vec3 is a packed
   four-lane SIMD register, with f32 values modelled as exact rationals;
   namespace TRT embeds the trt-core crate, whose vector type follows the
   specification's three-component model, with f32 values modelled as exact
   reals so that square roots are available.  Definitions come first, all
   theorems follow. -/

namespace RT

/-- Model of the binary crate Vec3 (src/src/vec3.rs): a packed_simd f32x4
register with four lanes; lane 3 (field w) is the hidden fourth SIMD lane. -/
structure Vec3 where
  x : ℚ
  y : ℚ
  z : ℚ
  w : ℚ
deriving DecidableEq, Repr

/-- Embedding of Vec3::new (src/src/vec3.rs): builds the register with a zero
fourth lane. -/
def Vec3.new (x y z : ℚ) : Vec3 := ⟨x, y, z, 0⟩

/-- Embedding of Vec3::splat (src/src/vec3.rs): calls Vec3::new on one value. -/
def Vec3.splat (v : ℚ) : Vec3 := Vec3.new v v v

/-- Embedding of Vec3::random (src/src/vec3.rs): four fresh random draws fill
all four lanes, including the fourth. -/
def Vec3.random (draws : Fin 4 → ℚ) : Vec3 := ⟨draws 0, draws 1, draws 2, draws 3⟩

instance : Add Vec3 := ⟨fun a b => ⟨a.x + b.x, a.y + b.y, a.z + b.z, a.w + b.w⟩⟩

instance : Sub Vec3 := ⟨fun a b => ⟨a.x - b.x, a.y - b.y, a.z - b.z, a.w - b.w⟩⟩

instance : Mul Vec3 := ⟨fun a b => ⟨a.x * b.x, a.y * b.y, a.z * b.z, a.w * b.w⟩⟩

instance : Neg Vec3 := ⟨fun a => ⟨-a.x, -a.y, -a.z, -a.w⟩⟩

instance : HMul ℚ Vec3 Vec3 := ⟨fun c a => ⟨c * a.x, c * a.y, c * a.z, c * a.w⟩⟩

instance : HMul Vec3 ℚ Vec3 := ⟨fun a c => ⟨a.x * c, a.y * c, a.z * c, a.w * c⟩⟩

instance : HDiv Vec3 ℚ Vec3 := ⟨fun a c => ⟨a.x / c, a.y / c, a.z / c, a.w / c⟩⟩

/-- Embedding of Vec3::dot (src/src/vec3.rs): the lane-wise product summed
over all four lanes. -/
def Vec3.dot (a b : Vec3) : ℚ := a.x * b.x + a.y * b.y + a.z * b.z + a.w * b.w

/-- Embedding of Vec3::squared_len (src/src/vec3.rs): the self product summed
over all four lanes. -/
def Vec3.squared_len (a : Vec3) : ℚ := a.x * a.x + a.y * a.y + a.z * a.z + a.w * a.w

/-- Embedding of Vec3::cross (src/src/vec3.rs): lane shuffles followed by a
lane-wise multiply and subtract; the shuffles keep lane 3 in place. -/
def Vec3.cross (a b : Vec3) : Vec3 :=
  let r1 : Vec3 := ⟨a.y, a.z, a.x, a.w⟩
  let r2 : Vec3 := ⟨b.z, b.x, b.y, b.w⟩
  let r3 : Vec3 := ⟨a.z, a.x, a.y, a.w⟩
  let r4 : Vec3 := ⟨b.y, b.z, b.x, b.w⟩
  r1 * r2 - r3 * r4

/-- Model of random_in_unit_sphere (src/src/main.rs).  The source loops
drawing candidates 2 * Vec3::random() - splat(1.) until the four-lane dot of
the candidate with itself is below 1; the model takes the stream of draws, a
starting stream position and a fuel bound, returning none when no candidate
within the fuel is accepted. -/
def random_in_unit_sphere (draws : ℕ → Fin 4 → ℚ) : ℕ → ℕ → Option Vec3
  | _, 0 => none
  | i, fuel + 1 =>
    let p := (2 : ℚ) * Vec3.random (draws i) - Vec3.splat 1
    if Vec3.dot p p < 1 then some p else random_in_unit_sphere draws (i + 1) fuel

/-- Embedding of schlick (src/src/main.rs): the Schlick reflectance
approximation. -/
def schlick (cosine ref_idx : ℚ) : ℚ :=
  let r0 := (1 - ref_idx) / (1 + ref_idx)
  let r0 := r0 * r0
  r0 + (1 - r0) * (1 - cosine) ^ 5

/-- Largest finite f32, the exact value of std::f32::MAX used as the upper
intersection bound in color (src/src/main.rs). -/
def f32Max : ℚ := 2 ^ 128 - 2 ^ 104

/-- Modelled from the spec: the binary crate Ray (src/src/ray.rs is not
under src/): origin, direction and a shutter time. -/
structure Ray where
  origin : Vec3
  direction : Vec3
  time : ℚ

/-- Modelled from the spec (section 3): the fields of the binary crate
HitRecord except the borrowed material (src/src/hit.rs is not under src/). -/
structure HitData where
  t : ℚ
  p : Vec3
  normal : Vec3
  u : ℚ
  v : ℚ

/-- Modelled from the spec: the binary crate Material capability (the
material trait module is not under src/): scatter consumes the thread-local
random state, modelled as an abstract counter threaded through the call;
emitted is the pure emission query. -/
structure Material where
  scatter : Ray → HitData → ℕ → Option (Ray × Vec3) × ℕ
  emitted : ℚ → ℚ → Vec3 → Vec3

/-- Modelled from the spec: the binary crate HitRecord, the pure fields
plus the borrowed material. -/
structure HitRecord where
  data : HitData
  mat : Material

/-- Modelled from the spec: the binary crate Hit capability (the world
argument of color, src/src/hit.rs is not under src/): a hit query over a ray
and a parameter interval, threading the same thread-local random state
because volumetric hit tests draw from it. -/
def World : Type := Ray → ℚ → ℚ → ℕ → Option HitRecord × ℕ

/-- Embedding of color (src/src/main.rs): the recursive path integrator.
Intersects over (0.001, f32::MAX); on a miss returns splat(0.); on a hit
returns emitted plus the attenuated recursive radiance when depth < 50 and
the material scatters, and emitted alone otherwise.  The thread-local random
state is threaded explicitly. -/
def color (ray : Ray) (world : World) (depth : ℕ) (st : ℕ) : Vec3 × ℕ :=
  match world ray (1 / 1000) f32Max st with
  | (some rec', st₁) =>
    let emitted := rec'.mat.emitted rec'.data.u rec'.data.v rec'.data.p
    if _h : depth < 50 then
      match rec'.mat.scatter ray rec'.data st₁ with
      | (some (scattered, attn), st₂) =>
        let rc := color scattered world (depth + 1) st₂
        (emitted + attn * rc.1, rc.2)
      | (none, st₂) => (emitted, st₂)
    else
      (emitted, st₁)
  | (none, st₁) => (Vec3.splat 0, st₁)
termination_by 50 - depth

/-- Saturating cast of an f32 to u8, the semantics of the Rust cast in clamp
(src/src/main.rs): truncation toward zero, saturating at 0 and 255. -/
noncomputable def castU8 (x : ℝ) : ℕ := if x < 0 then 0 else min (⌊x⌋.toNat) 255

/-- Embedding of clamp (src/src/main.rs): caps the channel at 255. and casts
to u8. -/
noncomputable def clamp (x : ℝ) : ℕ := castU8 (if x > 255 then 255 else x)

/-- One output channel of the render driver (ImageViewer::new in
src/src/main.rs): the accumulated channel is divided by the sample count,
square-root gamma corrected, scaled by 255.99 and clamped to a byte.  The
Vec3 division and Vec3::sqrt of the source act lane-wise, so the byte of one
channel is exactly this scalar computation on that channel. -/
noncomputable def channelByte (acc : ℝ) (n : ℕ) : ℕ :=
  clamp (255.99 * Real.sqrt (acc / n))

/-- Byte map as the specification words it for comparison with channelByte:
clamp(255.999 * channel, 0, 255) truncated to an integer. -/
noncomputable def specByte (c : ℝ) : ℕ := (⌊min (max (255.999 * c) 0) 255⌋).toNat

end RT

namespace RT

/-- Draw stream for the random_in_unit_sphere witness. -/
def witnessDraws : Fin 4 → ℚ
  | 0 => 1 / 2
  | 1 => 1 / 2
  | 2 => 1 / 2
  | 3 => 1 / 4

/-- Hit data of the color witness world: a hit at parameter 1 on a surface
point with its normal. -/
def wData : HitData := ⟨1, Vec3.new 0 0 (-1), Vec3.new 0 0 (-1), 0, 0⟩

/-- Scattered ray produced by the color witness material. -/
def wRay2 : Ray := ⟨Vec3.new 0 0 (-1), Vec3.new 0 0 (-1), 0⟩

/-- Material of the color witness world: always scatters to wRay2 with
attenuation one half, emits black. -/
def wMat : Material :=
  ⟨fun _ _ st => (some (wRay2, Vec3.splat (1 / 2)), st), fun _ _ _ => Vec3.splat 0⟩

/-- World of the color witness: every hit query reports the same record. -/
def wWorld : World := fun _ _ _ st => (some ⟨wData, wMat⟩, st)

/-- Primary ray of the color witness. -/
def wRay : Ray := ⟨Vec3.new 0 0 (-3), Vec3.new 0 0 1, 0⟩

end RT

namespace TRT

noncomputable section

/-- Modelled from the spec: the trt-core Vec3 (the trt-core vec3 module is
not under src/); per section 3 of the spec it is a three-component float
vector with the standard algebra, modelled over the reals. -/
structure Vec3 where
  x : ℝ
  y : ℝ
  z : ℝ

/-- Modelled from the spec: componentwise constant vector. -/
def Vec3.splat (v : ℝ) : Vec3 := ⟨v, v, v⟩

instance : Add Vec3 := ⟨fun a b => ⟨a.x + b.x, a.y + b.y, a.z + b.z⟩⟩

instance : Sub Vec3 := ⟨fun a b => ⟨a.x - b.x, a.y - b.y, a.z - b.z⟩⟩

instance : Mul Vec3 := ⟨fun a b => ⟨a.x * b.x, a.y * b.y, a.z * b.z⟩⟩

instance : Neg Vec3 := ⟨fun a => ⟨-a.x, -a.y, -a.z⟩⟩

instance : HMul ℝ Vec3 Vec3 := ⟨fun c a => ⟨c * a.x, c * a.y, c * a.z⟩⟩

instance : HMul Vec3 ℝ Vec3 := ⟨fun a c => ⟨a.x * c, a.y * c, a.z * c⟩⟩

instance : HDiv Vec3 ℝ Vec3 := ⟨fun a c => ⟨a.x / c, a.y / c, a.z / c⟩⟩

/-- Modelled from the spec: the three-component dot product. -/
def Vec3.dot (a b : Vec3) : ℝ := a.x * b.x + a.y * b.y + a.z * b.z

/-- Modelled from the spec: the squared length. -/
def Vec3.squared_len (a : Vec3) : ℝ := Vec3.dot a a

/-- Modelled from the spec: the length. -/
def Vec3.len (a : Vec3) : ℝ := Real.sqrt (Vec3.squared_len a)

/-- Modelled from the spec: unit normalization, division by the length. -/
def Vec3.unit (a : Vec3) : Vec3 := a / Vec3.len a

/-- Modelled from the spec: the componentwise square root used by
Scene::pixel_color for gamma correction. -/
def Vec3.sqrtV (a : Vec3) : Vec3 := ⟨Real.sqrt a.x, Real.sqrt a.y, Real.sqrt a.z⟩

/-- Modelled from the spec: componentwise minimum (Vec3::min). -/
def Vec3.min (a b : Vec3) : Vec3 := ⟨Min.min a.x b.x, Min.min a.y b.y, Min.min a.z b.z⟩

/-- Modelled from the spec: componentwise maximum (Vec3::max). -/
def Vec3.max (a b : Vec3) : Vec3 := ⟨Max.max a.x b.x, Max.max a.y b.y, Max.max a.z b.z⟩

/-- Modelled from the spec: the trt-core Ray (origin, direction, shutter
time); the trt-core ray module is not under src/. -/
structure Ray where
  origin : Vec3
  direction : Vec3
  time : ℝ

/-- Modelled from the spec: the parametric ray point O + t D
(Ray::point_at_parameter, used by MovingSphere::hit). -/
def Ray.point_at_parameter (r : Ray) (t : ℝ) : Vec3 := r.origin + t * r.direction

/-- Largest finite f32 as a real, the value of std::f32::MAX used by
compute_bbox (src/trt-core/src/hit/rotate.rs) and as the upper intersection
bound of the integrator. -/
def f32Max : ℝ := 2 ^ 128 - 2 ^ 104

/-- Modelled from the spec: the hidden thread-local random source
(rand::thread_rng()) that trt-core materials and the camera draw from,
modelled as fixed streams of unit-sphere points, unit-disk points and
unit-interval scalars, consumed by index. -/
structure Hidden where
  sph : ℕ → Vec3
  dsk : ℕ → Vec3
  tm : ℕ → ℝ

/-- Cursor into the three hidden streams. -/
structure HIdx where
  s : ℕ
  d : ℕ
  t : ℕ

/-- Modelled from the spec: trt-core utils random_in_unit_sphere(rng) (the
utils module is not under src/) returns a random point in the unit sphere
drawn from the given source, looping until a candidate of squared length
below 1 is accepted.  The hidden stream models the sequence of points that
rejection loop returns, so in any real execution every consumed value has
squared length below 1; the hidden-dependence counterexample proves that
bound for every draw of the streams it uses.  The model consumes the next
draw and advances the cursor. -/
def random_in_unit_sphere (h : Hidden) (st : HIdx) : Vec3 × HIdx :=
  (h.sph st.s, ⟨st.s + 1, st.d, st.t⟩)

/-- Modelled from the spec: reflection about the normal, v - 2 dot(v,n) n
(trt-core utils reflect; the identical function appears in src/src/main.rs). -/
def reflect (v n : Vec3) : Vec3 := v - (2 * Vec3.dot v n) * n

/-- Modelled from the spec: a texture is a pure function of (u, v, point). -/
def Texture : Type := ℝ → ℝ → Vec3 → Vec3

/-- Modelled from the spec (section 3): the fields of the trt-core
HitRecord except the borrowed material (the hit module base is not under
src/). -/
structure HitData where
  t : ℝ
  p : Vec3
  normal : Vec3
  u : ℝ
  v : ℝ

/-- Modelled from the spec: the trt-core Material capability (the material
trait module is not under src/): scatter draws from the hidden thread-local
streams, threaded explicitly; emitted is the pure emission query, black by
default in the source trait. -/
structure Material where
  scatter : Ray → HitData → Hidden → HIdx → Option (Ray × Vec3) × HIdx
  emitted : ℝ → ℝ → Vec3 → Vec3

/-- Modelled from the spec: the trt-core HitRecord, the pure fields plus
the borrowed material. -/
structure HitRecord where
  data : HitData
  mat : Material

/-- Embedding of Lambertian (src/src/material/lambertian.rs): a texture
albedo. -/
structure Lambertian where
  albedo : Texture

/-- Embedding of Lambertian::scatter (src/src/material/lambertian.rs):
target = p + normal + random_in_unit_sphere(thread_rng()); the scattered ray
starts at p toward target - p and carries the incoming ray's time; the
attenuation is the texture value; always scatters. -/
def Lambertian.scatter (l : Lambertian) (r_in : Ray) (rec' : HitData)
    (h : Hidden) (st : HIdx) : Option (Ray × Vec3) × HIdx :=
  let drawn := random_in_unit_sphere h st
  let target := rec'.p + rec'.normal + drawn.1
  (some (⟨rec'.p, target - rec'.p, r_in.time⟩, l.albedo rec'.u rec'.v rec'.p), drawn.2)

/-- Lambertian as a material: its scatter plus the default black emission. -/
def Lambertian.material (l : Lambertian) : Material :=
  ⟨l.scatter, fun _ _ _ => Vec3.splat 0⟩

/-- Embedding of Isotropic (src/src/material/isotropic.rs): a texture
albedo. -/
structure Isotropic where
  albedo : Texture

/-- Embedding of Isotropic::scatter (src/src/material/isotropic.rs): the
scattered ray starts at p in a fresh unit-sphere direction and carries the
incoming ray's time; always scatters. -/
def Isotropic.scatter (iso : Isotropic) (r_in : Ray) (rec' : HitData)
    (h : Hidden) (st : HIdx) : Option (Ray × Vec3) × HIdx :=
  let drawn := random_in_unit_sphere h st
  (some (⟨rec'.p, drawn.1, r_in.time⟩, iso.albedo rec'.u rec'.v rec'.p), drawn.2)

/-- Embedding of Metal (src/trt-core/src/material/metal.rs): an albedo color
and a fuzz factor. -/
structure Metal where
  albedo : Vec3
  fuzz : ℝ

/-- Embedding of Metal::new (src/trt-core/src/material/metal.rs): stores the
albedo and fuzz.min(1.). -/
def Metal.new (albedo : Vec3) (fuzz : ℝ) : Metal := ⟨albedo, Min.min fuzz 1⟩

/-- Embedding of Metal::scatter (src/trt-core/src/material/metal.rs):
reflects the unit incoming direction about the normal, perturbs by
fuzz * random_in_unit_sphere(thread_rng()), builds the scattered ray with
time 0, and accepts exactly when the scattered direction has positive dot
with the normal, returning the albedo as attenuation. -/
def Metal.scatter (m : Metal) (r_in : Ray) (rec' : HitData)
    (h : Hidden) (st : HIdx) : Option (Ray × Vec3) × HIdx :=
  let reflected := reflect (Vec3.unit r_in.direction) rec'.normal
  let drawn := random_in_unit_sphere h st
  let scattered : Ray := ⟨rec'.p, reflected + m.fuzz * drawn.1, 0⟩
  if 0 < Vec3.dot scattered.direction rec'.normal then
    (some (scattered, m.albedo), drawn.2)
  else
    (none, drawn.2)

/-- Metal as a material: its scatter plus the default black emission of the
source trait. -/
def Metal.material (m : Metal) : Material :=
  ⟨m.scatter, fun _ _ _ => Vec3.splat 0⟩

/-- Embedding of MovingSphere (src/trt-core/src/hit/moving_sphere.rs). -/
structure MovingSphere where
  center0 : Vec3
  center1 : Vec3
  time0 : ℝ
  time1 : ℝ
  radius : ℝ
  material : Material

/-- Embedding of MovingSphere::center (src/trt-core/src/hit/moving_sphere.rs):
the time-interpolated center. -/
def MovingSphere.center (s : MovingSphere) (time : ℝ) : Vec3 :=
  s.center0 + ((time - s.time0) / (s.time1 - s.time0)) * (s.center1 - s.center0)

/-- The local oc of MovingSphere::hit: origin minus center at the ray time. -/
def MovingSphere.oc (s : MovingSphere) (ray : Ray) : Vec3 :=
  ray.origin - s.center ray.time

/-- The local a of MovingSphere::hit: dot(direction, direction). -/
def MovingSphere.qa (s : MovingSphere) (ray : Ray) : ℝ :=
  Vec3.dot ray.direction ray.direction

/-- The local b of MovingSphere::hit: dot(oc, direction). -/
def MovingSphere.qb (s : MovingSphere) (ray : Ray) : ℝ :=
  Vec3.dot (s.oc ray) ray.direction

/-- The local c of MovingSphere::hit: dot(oc, oc) - radius * radius. -/
def MovingSphere.qc (s : MovingSphere) (ray : Ray) : ℝ :=
  Vec3.dot (s.oc ray) (s.oc ray) - s.radius * s.radius

/-- The local discriminant of MovingSphere::hit: b * b - a * c. -/
def MovingSphere.disc (s : MovingSphere) (ray : Ray) : ℝ :=
  s.qb ray * s.qb ray - s.qa ray * s.qc ray

/-- The near quadratic root tried first by MovingSphere::hit. -/
def MovingSphere.nearRoot (s : MovingSphere) (ray : Ray) : ℝ :=
  (-s.qb ray - Real.sqrt (s.disc ray)) / s.qa ray

/-- The far quadratic root tried second by MovingSphere::hit. -/
def MovingSphere.farRoot (s : MovingSphere) (ray : Ray) : ℝ :=
  (-s.qb ray + Real.sqrt (s.disc ray)) / s.qa ray

/-- The hit record MovingSphere::hit builds at a solution: point at the
parameter, normal (p - center(time)) / radius, u = v = 0. -/
def MovingSphere.rec_at (s : MovingSphere) (ray : Ray) (t : ℝ) : HitRecord :=
  ⟨⟨t, ray.point_at_parameter t,
    (ray.point_at_parameter t - s.center ray.time) / s.radius, 0, 0⟩, s.material⟩

/-- Embedding of MovingSphere::hit (src/trt-core/src/hit/moving_sphere.rs):
when the discriminant is positive, the source iterates over the near and the
far root and returns the record of the first lying strictly inside
(t_min, t_max); the two-element iteration is written as nested
conditionals. -/
def MovingSphere.hit (s : MovingSphere) (ray : Ray) (t_min t_max : ℝ) :
    Option HitRecord :=
  if 0 < s.disc ray then
    if s.nearRoot ray < t_max ∧ t_min < s.nearRoot ray then
      some (s.rec_at ray (s.nearRoot ray))
    else if s.farRoot ray < t_max ∧ t_min < s.farRoot ray then
      some (s.rec_at ray (s.farRoot ray))
    else none
  else none

/-- Modelled from the spec: the trt-core AABB (the aabb module is not under
src/): min and max corner. -/
structure AABB where
  min : Vec3
  max : Vec3

/-- Membership of a point in an axis-aligned box. -/
def AABB.contains (b : AABB) (p : Vec3) : Prop :=
  b.min.x ≤ p.x ∧ p.x ≤ b.max.x ∧ b.min.y ≤ p.y ∧ p.y ≤ b.max.y ∧
    b.min.z ≤ p.z ∧ p.z ≤ b.max.z

instance (b : AABB) (p : Vec3) : Decidable (b.contains p) := by
  unfold AABB.contains
  infer_instance

/-- Embedding of compute_bbox (src/trt-core/src/hit/rotate.rs): iterates the
eight corners of the child box in the source loop order, applies the
(x, z)-plane rotation new_x = cos x + sin z, new_z = -sin x + cos z to every
corner, and folds componentwise min and max starting from splat(f32::MAX)
and splat(-f32::MAX). -/
def compute_bbox (bbox : AABB) (cos_theta sin_theta : ℝ) : AABB :=
  let corners : List (ℝ × ℝ × ℝ) :=
    [(0, 0, 0), (0, 0, 1), (0, 1, 0), (0, 1, 1),
     (1, 0, 0), (1, 0, 1), (1, 1, 0), (1, 1, 1)]
  let step := fun (mm : Vec3 × Vec3) (ijk : ℝ × ℝ × ℝ) =>
    let x := ijk.1 * bbox.max.x + (1 - ijk.1) * bbox.min.x
    let y := ijk.2.1 * bbox.max.y + (1 - ijk.2.1) * bbox.min.y
    let z := ijk.2.2 * bbox.max.z + (1 - ijk.2.2) * bbox.min.z
    let tester : Vec3 := ⟨cos_theta * x + sin_theta * z, y, -sin_theta * x + cos_theta * z⟩
    (Vec3.min tester mm.1, Vec3.max tester mm.2)
  let r := corners.foldl step (Vec3.splat f32Max, Vec3.splat (-f32Max))
  ⟨r.1, r.2⟩

/-- Embedding of the bounding-box computation of RotateX::new
(src/trt-core/src/hit/rotate.rs): the stored box is compute_bbox applied to
the child's box with the wrapper's cos and sin; the source derives cos and
sin from the angle with f32 trigonometry, which the model takes directly. -/
def rotateX_new_bbox (child_bbox : AABB) (cos_theta sin_theta : ℝ) : AABB :=
  compute_bbox child_bbox cos_theta sin_theta

/-- Embedding of the world-space (forward) point rotation of RotateX::hit
(src/trt-core/src/hit/rotate.rs): the transform RotateX applies to the hit
point it returns, acting in the (y, z) plane. -/
def rotateX_forward (cos_theta sin_theta : ℝ) (p : Vec3) : Vec3 :=
  ⟨p.x, cos_theta * p.y - sin_theta * p.z, sin_theta * p.y + cos_theta * p.z⟩

/-- Metal instance for the scatter witnesses: white albedo, zero fuzz. -/
def mW : Metal := ⟨Vec3.splat 1, 0⟩

/-- Incoming ray of the scatter witnesses, with a nonzero time. -/
def rInW : Ray := ⟨⟨0, 0, -3⟩, ⟨0, 0, 1⟩, 7⟩

/-- Hit data of the scatter witnesses. -/
def recW : HitData := ⟨2, ⟨0, 0, -1⟩, ⟨0, 0, -1⟩, 0, 0⟩

/-- Hidden streams of the scatter witnesses: all draws zero. -/
def hiddenW : Hidden := ⟨fun _ => Vec3.splat 0, fun _ => Vec3.splat 0, fun _ => 0⟩

/-- Initial hidden cursor. -/
def stW : HIdx := ⟨0, 0, 0⟩

/-- Lambertian instance for the scatter-time witness. -/
def lW : Lambertian := ⟨fun _ _ _ => Vec3.splat 1⟩

/-- Isotropic instance for the scatter-time witness. -/
def isoW : Isotropic := ⟨fun _ _ _ => Vec3.splat 1⟩

/-- Static moving sphere of the hit witness: both centers at the origin over
shutter interval (0, 1), radius 1. -/
def sphereW : MovingSphere :=
  ⟨Vec3.splat 0, Vec3.splat 0, 0, 1, 1, (Lambertian.mk fun _ _ _ => Vec3.splat 1).material⟩

/-- Primary ray of the hit witness: from (0,0,-3) along +z at time 0. -/
def rayW : Ray := ⟨⟨0, 0, -3⟩, ⟨0, 0, 1⟩, 0⟩

/-- Modelled from the spec (section 4.5): the trt-core Camera (its source
file is not under src/): the precomputed frame, lens radius and shutter
interval. -/
structure Camera where
  origin : Vec3
  lower_left_corner : Vec3
  horizontal : Vec3
  vertical : Vec3
  u : Vec3
  v : Vec3
  lens_radius : ℝ
  time0 : ℝ
  time1 : ℝ

/-- Modelled from the spec (section 4.5): Camera::get_ray(s, t) samples a
lens-disk point and a shutter time; the source signature takes no rng
argument, so both draws come from the hidden thread-local streams. -/
def Camera.get_ray (c : Camera) (s t : ℝ) (h : Hidden) (st : HIdx) : Ray × HIdx :=
  let rd := c.lens_radius * h.dsk st.d
  let offset := rd.x * c.u + rd.y * c.v
  let time := c.time0 + h.tm st.t * (c.time1 - c.time0)
  (⟨c.origin + offset,
    c.lower_left_corner + s * c.horizontal + t * c.vertical - c.origin - offset, time⟩,
   ⟨st.s, st.d + 1, st.t + 1⟩)

/-- Modelled from the spec: the trt-core Hit capability as used by Scene, a
pure hit query (the primitives embedded here draw no randomness during
intersection). -/
def World : Type := Ray → ℝ → ℝ → Option HitRecord

/-- A MovingSphere as a world. -/
def MovingSphere.toWorld (s : MovingSphere) : World :=
  fun ray t_min t_max => s.hit ray t_min t_max

/-- Modelled from the spec (section 4.4): trt-core's compute_color (the
utils module is not under src/), the recursive path integrator: intersect
over (0.001, f32::MAX), return the scene's ambient color on a miss, and on
a hit return emitted plus the attenuated recursive radiance while
depth < max_depth; otherwise emitted alone.  The hidden thread-local
streams are threaded explicitly. -/
def compute_color (world : World) (ambiant : Vec3) (max_depth : ℕ) (h : Hidden)
    (ray : Ray) (depth : ℕ) (st : HIdx) : Vec3 × HIdx :=
  match world ray (1 / 1000) f32Max with
  | none => (ambiant, st)
  | some rec' =>
    let emitted := rec'.mat.emitted rec'.data.u rec'.data.v rec'.data.p
    if _hlt : depth < max_depth then
      match rec'.mat.scatter ray rec'.data h st with
      | (some (sc, attn), st') =>
        let rc := compute_color world ambiant max_depth h sc (depth + 1) st'
        (emitted + attn * rc.1, rc.2)
      | (none, st') => (emitted, st')
    else (emitted, st)
termination_by max_depth - depth

/-- Embedding of Scene (src/trt-core/src/scene.rs). -/
structure Scene where
  camera : Camera
  width : ℕ
  height : ℕ
  world : World
  samples_per_px : ℕ
  rays_per_sample : ℕ
  ambiant_color : Vec3

/-- Modelled from the spec: the explicit Rng capability passed to
Scene::pixel_color (src/trt-core/src/scene.rs; the Rng bound is from the
utils module, not under src/): a stream of unit-interval f32 draws with a
cursor; gen returns the current draw and advances. -/
structure RngState where
  vals : ℕ → ℝ
  idx : ℕ

/-- One draw from the explicit rng capability. -/
def RngState.gen (r : RngState) : ℝ × RngState := (r.vals r.idx, ⟨r.vals, r.idx + 1⟩)

/-- Modelled from the spec (section 4.6): one channel of the Color that
Scene::pixel_color produces via .into() (the trt-core color module is not
under src/): clamp(255.999 * channel, 0, 255) truncated to 8 bits. -/
def colorByte (c : ℝ) : ℕ := (⌊Min.min (Max.max (255.999 * c) 0) 255⌋).toNat

/-- Modelled from the spec: the Vec3-to-Color conversion, channel by
channel. -/
def vec_to_color (v : Vec3) : ℕ × ℕ × ℕ := (colorByte v.x, colorByte v.y, colorByte v.z)

/-- Embedding of Scene::pixel_color (src/trt-core/src/scene.rs): fold
samples_per_px jittered samples, the jitter drawn from the explicit rng
capability, each sample tracing one camera ray through compute_color with
rays_per_sample as the depth bound; divide the sum by the sample count,
take the componentwise square root and convert to a Color.  The hidden
thread-local streams consumed by the camera and the materials are threaded
alongside, starting at the current cursor position. -/
def Scene.pixel_color (s : Scene) (xy : ℕ × ℕ) (rng : RngState) (h : Hidden) :
    ℕ × ℕ × ℕ :=
  let step := fun (acc : Vec3 × RngState × HIdx) (_ : ℕ) =>
    let du := acc.2.1.gen
    let dv := du.2.gen
    let u := ((xy.1 : ℝ) + du.1) / (s.width : ℝ)
    let v := ((xy.2 : ℝ) + dv.1) / (s.height : ℝ)
    let ray := s.camera.get_ray u v h acc.2.2
    let c := compute_color s.world s.ambiant_color s.rays_per_sample h ray.1 0 ray.2
    (acc.1 + c.1, dv.2, c.2)
  let r := (List.range s.samples_per_px).foldl step (Vec3.splat 0, rng, ⟨0, 0, 0⟩)
  vec_to_color (Vec3.sqrtV (r.1 / (s.samples_per_px : ℝ)))

/-- Metal of the hidden-dependence scene: white albedo, fuzz 1. -/
def metalC3 : Metal := ⟨Vec3.splat 1, 1⟩

/-- Static unit sphere at the origin with the C3 metal material. -/
def sphereC3 : MovingSphere :=
  ⟨Vec3.splat 0, Vec3.splat 0, 0, 1, 1, metalC3.material⟩

/-- Camera of the hidden-dependence scene: zero aperture, fixed shutter,
every ray leaves (3/5, 0, -3) toward +z, meeting the unit sphere at grazing
height 3/5. -/
def cameraC3 : Camera :=
  ⟨⟨3 / 5, 0, -3⟩, ⟨3 / 5, 0, -2⟩, Vec3.splat 0, Vec3.splat 0, Vec3.splat 0, Vec3.splat 0,
   0, 0, 0⟩

/-- One-pixel, one-sample scene over the C3 sphere with white ambient color
and depth bound 1. -/
def sceneC3 : Scene := ⟨cameraC3, 1, 1, sphereC3.toWorld, 1, 1, Vec3.splat 1⟩

/-- Explicit rng sequence used for both evaluations: all zeros. -/
def rngC3 : RngState := ⟨fun _ => 0, 0⟩

/-- First hidden thread-local sequence: every draw zero; each unit-sphere
draw has squared length 0 < 1 and is producible by the rejection loop. -/
def hiddenA : Hidden := ⟨fun _ => Vec3.splat 0, fun _ => Vec3.splat 0, fun _ => 0⟩

/-- Second hidden thread-local sequence: the first unit-sphere draw is
(-27/50, 0, 18/25), of squared length 81/100 < 1 and hence producible by
the rejection loop; the rest zero. -/
def hiddenB : Hidden :=
  ⟨fun n => if n = 0 then ⟨-27 / 50, 0, 18 / 25⟩ else Vec3.splat 0,
   fun _ => Vec3.splat 0, fun _ => 0⟩

/-- The primary camera ray of the C3 scene. -/
def rayC3 : Ray := ⟨⟨3 / 5, 0, -3⟩, ⟨0, 0, 1⟩, 0⟩

/-- The hit record data of the C3 primary ray: near root 11/5, point and
normal (3/5, 0, -4/5). -/
def recC3 : HitData := ⟨11 / 5, ⟨3 / 5, 0, -4 / 5⟩, ⟨3 / 5, 0, -4 / 5⟩, 0, 0⟩

/-- The scattered ray accepted under the first hidden sequence: the pure
reflection (24/25, 0, -7/25) leaving the hit point. -/
def scatARay : Ray := ⟨⟨3 / 5, 0, -4 / 5⟩, ⟨24 / 25, 0, -7 / 25⟩, 0⟩

end

end TRT

@[simp] theorem RT.Vec3.add_def (a b : RT.Vec3) :
    a + b = ⟨a.x + b.x, a.y + b.y, a.z + b.z, a.w + b.w⟩ := rfl

@[simp] theorem RT.Vec3.sub_def (a b : RT.Vec3) :
    a - b = ⟨a.x - b.x, a.y - b.y, a.z - b.z, a.w - b.w⟩ := rfl

@[simp] theorem RT.Vec3.mul_def (a b : RT.Vec3) :
    a * b = ⟨a.x * b.x, a.y * b.y, a.z * b.z, a.w * b.w⟩ := rfl

@[simp] theorem RT.Vec3.neg_def (a : RT.Vec3) : -a = ⟨-a.x, -a.y, -a.z, -a.w⟩ := rfl

@[simp] theorem RT.Vec3.smul_def (c : ℚ) (a : RT.Vec3) :
    c * a = RT.Vec3.mk (c * a.x) (c * a.y) (c * a.z) (c * a.w) := rfl

@[simp] theorem RT.Vec3.smul_right_def (a : RT.Vec3) (c : ℚ) :
    a * c = RT.Vec3.mk (a.x * c) (a.y * c) (a.z * c) (a.w * c) := rfl

@[simp] theorem RT.Vec3.div_def (a : RT.Vec3) (c : ℚ) :
    a / c = RT.Vec3.mk (a.x / c) (a.y / c) (a.z / c) (a.w / c) := rfl

/-- C8: schlick(cosine, ref_idx) returns 0 at normal incidence (cosine = 1)
when ref_idx = 1, and for every fixed ref_idx > 0 it is non-increasing in
cosine on the interval [0, 1]. -/
theorem schlick_normal_incidence_monotone :
    RT.schlick 1 1 = 0 ∧
    ∀ r c₁ c₂ : ℚ, 0 < r → 0 ≤ c₁ → c₁ ≤ c₂ → c₂ ≤ 1 →
      RT.schlick c₂ r ≤ RT.schlick c₁ r := by
  constructor
  · norm_num [RT.schlick]
  · intro r c₁ c₂ hr hc₁ hc12 hc₂
    unfold RT.schlick
    have hden : (0 : ℚ) < 1 + r := by linarith
    have hd1 : (1 - r) / (1 + r) ≤ 1 := by
      rw [div_le_one hden]; linarith
    have hdm1 : -1 ≤ (1 - r) / (1 + r) := by
      rw [le_div_iff₀ hden]; linarith
    have hr0 : (1 - r) / (1 + r) * ((1 - r) / (1 + r)) ≤ 1 := by nlinarith
    have hpow : (1 - c₂) ^ 5 ≤ (1 - c₁) ^ 5 :=
      pow_le_pow_left₀ (by linarith) (by linarith) 5
    nlinarith [mul_nonneg (by linarith : (0 : ℚ) ≤ 1 - (1 - r) / (1 + r) * ((1 - r) / (1 + r)))
      (by linarith : (0 : ℚ) ≤ (1 - c₁) ^ 5 - (1 - c₂) ^ 5)]

theorem schlick_monotone_witness :
    RT.schlick 1 1 = 0 ∧ RT.schlick 1 (1 / 2) ≤ RT.schlick 0 (1 / 2) :=
  ⟨schlick_normal_incidence_monotone.1,
   schlick_normal_incidence_monotone.2 (1 / 2) 0 1 (by norm_num) le_rfl
     (by norm_num) le_rfl⟩

/-- C9: the four-lane facts of the binary crate Vec3: dot and squared_len sum
all four lanes and hence agree with the three-component versions exactly when
the fourth lane is zero; new and splat establish a zero fourth lane, and add,
sub, lane-wise mul, scalar mul and div, neg and cross preserve it; random
fills the fourth lane with its fourth draw, so the candidate
2 * random - splat(1.) in random_in_unit_sphere keeps a fourth lane in [0, 2)
for draws in [0, 1), and any accepted point carries that lane, which the
four-lane dot includes. -/
theorem vec3_fourth_lane_spec :
    (∀ a b : RT.Vec3, RT.Vec3.dot a b = a.x * b.x + a.y * b.y + a.z * b.z + a.w * b.w) ∧
    (∀ a : RT.Vec3, RT.Vec3.squared_len a = a.x * a.x + a.y * a.y + a.z * a.z + a.w * a.w) ∧
    (∀ a b : RT.Vec3, a.w = 0 → b.w = 0 →
      RT.Vec3.dot a b = a.x * b.x + a.y * b.y + a.z * b.z ∧
      RT.Vec3.squared_len a = a.x * a.x + a.y * a.y + a.z * a.z) ∧
    (∀ x y z : ℚ, (RT.Vec3.new x y z).w = 0) ∧
    (∀ v : ℚ, (RT.Vec3.splat v).w = 0) ∧
    (∀ a b : RT.Vec3, a.w = 0 → b.w = 0 →
      (a + b).w = 0 ∧ (a - b).w = 0 ∧ (a * b).w = 0 ∧ (-a).w = 0) ∧
    (∀ (a : RT.Vec3) (c : ℚ), a.w = 0 → (c * a).w = 0 ∧ (a * c).w = 0 ∧ (a / c).w = 0) ∧
    (∀ a b : RT.Vec3, (RT.Vec3.cross a b).w = 0) ∧
    (∀ draws : Fin 4 → ℚ, (RT.Vec3.random draws).w = draws 3) ∧
    (∀ draws : Fin 4 → ℚ, ((2 : ℚ) * RT.Vec3.random draws - RT.Vec3.splat 1).w = 2 * draws 3) ∧
    (∀ (draws : ℕ → Fin 4 → ℚ) (i fuel : ℕ) (p : RT.Vec3),
      RT.random_in_unit_sphere draws i fuel = some p →
      (∃ k, p = (2 : ℚ) * RT.Vec3.random (draws k) - RT.Vec3.splat 1 ∧ p.w = 2 * draws k 3) ∧
      RT.Vec3.dot p p < 1 ∧
      ((∀ k j, 0 ≤ draws k j ∧ draws k j < 1) → 0 ≤ p.w ∧ p.w < 2)) := by
  refine ⟨fun a b => rfl, fun a => rfl, ?_, fun x y z => rfl, fun v => rfl, ?_, ?_, ?_,
    fun draws => rfl, ?_, ?_⟩
  · intro a b ha hb
    constructor
    · simp [RT.Vec3.dot, ha, hb]
    · simp [RT.Vec3.squared_len, ha]
  · intro a b ha hb
    refine ⟨?_, ?_, ?_, ?_⟩ <;> simp [ha, hb]
  · intro a c ha
    refine ⟨?_, ?_, ?_⟩ <;> simp [ha]
  · intro a b
    simp [RT.Vec3.cross]
  · intro draws
    simp [RT.Vec3.random, RT.Vec3.splat, RT.Vec3.new]
  · intro draws i fuel p hp
    induction fuel generalizing i with
    | zero => simp [RT.random_in_unit_sphere] at hp
    | succ n ih =>
      rw [RT.random_in_unit_sphere] at hp
      by_cases hlt : RT.Vec3.dot ((2 : ℚ) * RT.Vec3.random (draws i) - RT.Vec3.splat 1)
          ((2 : ℚ) * RT.Vec3.random (draws i) - RT.Vec3.splat 1) < 1
      · rw [if_pos hlt] at hp
        obtain rfl : (2 : ℚ) * RT.Vec3.random (draws i) - RT.Vec3.splat 1 = p :=
          Option.some.inj hp
        refine ⟨⟨i, rfl, ?_⟩, hlt, ?_⟩
        · simp [RT.Vec3.random, RT.Vec3.splat, RT.Vec3.new]
        · intro hrange
          have h3 := hrange i 3
          constructor
          · simp [RT.Vec3.random, RT.Vec3.splat, RT.Vec3.new]
            linarith [h3.1]
          · simp [RT.Vec3.random, RT.Vec3.splat, RT.Vec3.new]
            linarith [h3.2]
      · rw [if_neg hlt] at hp
        exact ih (i + 1) hp

theorem vec3_fourth_lane_witness :
    RT.random_in_unit_sphere (fun _ => RT.witnessDraws) 0 1 = some ⟨0, 0, 0, 1 / 2⟩ ∧
    (0 : ℚ) ≤ (RT.Vec3.mk 0 0 0 (1 / 2)).w ∧ (RT.Vec3.mk 0 0 0 (1 / 2)).w < 2 := by
  have heval : RT.random_in_unit_sphere (fun _ => RT.witnessDraws) 0 1 =
      some ⟨0, 0, 0, 1 / 2⟩ := by
    rw [RT.random_in_unit_sphere]
    norm_num [RT.Vec3.dot, RT.Vec3.random, RT.Vec3.splat, RT.Vec3.new, RT.witnessDraws]
  refine ⟨heval, ?_⟩
  exact (vec3_fourth_lane_spec.2.2.2.2.2.2.2.2.2.2
    (fun _ => RT.witnessDraws) 0 1 _ heval).2.2
    (by intro k j
        fin_cases j <;>
          exact ⟨by norm_num [RT.witnessDraws], by norm_num [RT.witnessDraws]⟩)

/-- C1: color(ray, world, depth) intersects the ray against the world over
the interval (0.001, f32::MAX); on a miss it returns black (splat 0.); on a
hit with depth < 50 and a reported scatter it returns
emitted + attenuation * color(scattered, world, depth + 1) with lane-wise
product; otherwise (no scatter, or depth at least 50) it returns the
emission alone.  The thread-local random state is threaded through every
branch. -/
theorem color_spec (ray : RT.Ray) (w : RT.World) (depth st : ℕ) :
    (∀ st₁, w ray (1 / 1000) RT.f32Max st = (none, st₁) →
      RT.color ray w depth st = (RT.Vec3.splat 0, st₁)) ∧
    (∀ rec' st₁, w ray (1 / 1000) RT.f32Max st = (some rec', st₁) →
      (∀ sc attn st₂, depth < 50 →
        rec'.mat.scatter ray rec'.data st₁ = (some (sc, attn), st₂) →
        RT.color ray w depth st =
          (rec'.mat.emitted rec'.data.u rec'.data.v rec'.data.p +
             attn * (RT.color sc w (depth + 1) st₂).1,
           (RT.color sc w (depth + 1) st₂).2)) ∧
      (∀ st₂, depth < 50 →
        rec'.mat.scatter ray rec'.data st₁ = (none, st₂) →
        RT.color ray w depth st =
          (rec'.mat.emitted rec'.data.u rec'.data.v rec'.data.p, st₂)) ∧
      (50 ≤ depth →
        RT.color ray w depth st =
          (rec'.mat.emitted rec'.data.u rec'.data.v rec'.data.p, st₁))) := by
  constructor
  · intro st₁ h
    rw [RT.color, h]
  · intro rec' st₁ h
    refine ⟨?_, ?_, ?_⟩
    · intro sc attn st₂ hdep hsc
      rw [RT.color, h]
      simp only [dif_pos hdep, hsc]
    · intro st₂ hdep hsc
      rw [RT.color, h]
      simp only [dif_pos hdep, hsc]
    · intro hdep
      rw [RT.color, h]
      simp only [dif_neg (Nat.not_lt.mpr hdep)]

theorem color_spec_witness :
    RT.color RT.wRay RT.wWorld 0 0 =
      (RT.wMat.emitted RT.wData.u RT.wData.v RT.wData.p +
         RT.Vec3.splat (1 / 2) * (RT.color RT.wRay2 RT.wWorld 1 0).1,
       (RT.color RT.wRay2 RT.wWorld 1 0).2) :=
  ((color_spec RT.wRay RT.wWorld 0 0).2 ⟨RT.wData, RT.wMat⟩ 0 rfl).1
    RT.wRay2 (RT.Vec3.splat (1 / 2)) 0 (by norm_num) rfl

/-- C5 counterexample: the claim maps a channel through
clamp(255.999 * sqrt(average), 0, 255), but the driver multiplies by 255.99,
so at average (0.78126)^2 with one sample the driver byte is 199 while the
claimed formula gives 200. -/
theorem driver_byte_counterexample :
    RT.channelByte (((78126 : ℝ) / 100000) ^ 2) 1 ≠
      RT.specByte (Real.sqrt (((78126 : ℝ) / 100000) ^ 2 / 1)) := by
  have hc : Real.sqrt (((78126 : ℝ) / 100000) ^ 2 / 1) = (78126 : ℝ) / 100000 := by
    rw [div_one, Real.sqrt_sq (by norm_num)]
  have h1 : ⌊(255.99 : ℝ) * ((78126 : ℝ) / 100000)⌋ = 199 := by
    rw [Int.floor_eq_iff]; norm_num
  have h2 : ⌊min (max ((255.999 : ℝ) * ((78126 : ℝ) / 100000)) 0) 255⌋ = 200 := by
    rw [max_eq_left (by norm_num), min_eq_left (by norm_num)]
    rw [Int.floor_eq_iff]; norm_num
  rw [RT.channelByte, RT.clamp, RT.castU8, RT.specByte]
  simp only [Nat.cast_one]
  rw [hc, if_neg (by norm_num), if_neg (by norm_num), h1, h2]
  decide

/-- C5 amended: every output byte of the driver equals
clamp(255.99 * sqrt(average channel), 0, 255) truncated to an integer; the
scale constant in the source is 255.99, not the 255.999 the claim states,
and the lower clamp is realized by the saturating u8 cast. -/
theorem driver_byte_formula (acc : ℝ) (n : ℕ) :
    RT.channelByte acc n =
      (⌊min (max ((255.99 : ℝ) * Real.sqrt (acc / n)) 0) 255⌋).toNat := by
  have hy0 : 0 ≤ (255.99 : ℝ) * Real.sqrt (acc / n) :=
    mul_nonneg (by norm_num) (Real.sqrt_nonneg _)
  rw [RT.channelByte, RT.clamp, RT.castU8, max_eq_left hy0]
  by_cases h : (255.99 : ℝ) * Real.sqrt (acc / n) > 255
  · rw [if_pos h, if_neg (by norm_num), min_eq_right (le_of_lt h)]
    norm_num
  · have hle : (255.99 : ℝ) * Real.sqrt (acc / n) ≤ 255 := le_of_not_lt h
    rw [if_neg h, if_neg (not_lt.mpr hy0), min_eq_left hle]
    have hfl : ⌊(255.99 : ℝ) * Real.sqrt (acc / n)⌋ ≤ 255 := by
      have := Int.floor_le_floor hle
      simpa using this
    exact min_eq_left (Int.toNat_le.mpr (by exact_mod_cast hfl))

@[simp] theorem TRT.Vec3.add_comp (a b : TRT.Vec3) :
    a + b = ⟨a.x + b.x, a.y + b.y, a.z + b.z⟩ := rfl

@[simp] theorem TRT.Vec3.sub_comp (a b : TRT.Vec3) :
    a - b = ⟨a.x - b.x, a.y - b.y, a.z - b.z⟩ := rfl

@[simp] theorem TRT.Vec3.mul_comp (a b : TRT.Vec3) :
    a * b = ⟨a.x * b.x, a.y * b.y, a.z * b.z⟩ := rfl

@[simp] theorem TRT.Vec3.neg_comp (a : TRT.Vec3) : -a = ⟨-a.x, -a.y, -a.z⟩ := rfl

@[simp] theorem TRT.Vec3.smul_comp (c : ℝ) (a : TRT.Vec3) :
    c * a = TRT.Vec3.mk (c * a.x) (c * a.y) (c * a.z) := rfl

@[simp] theorem TRT.Vec3.smul_right_comp (a : TRT.Vec3) (c : ℝ) :
    a * c = TRT.Vec3.mk (a.x * c) (a.y * c) (a.z * c) := rfl

@[simp] theorem TRT.Vec3.div_comp (a : TRT.Vec3) (c : ℝ) :
    a / c = TRT.Vec3.mk (a.x / c) (a.y / c) (a.z / c) := rfl

/-- C6 counterexample: Metal::new(albedo, -1) stores fuzz -1, which is not in
the interval [0, 1]: the constructor clamps only from above. -/
theorem metal_new_fuzz_counterexample :
    ¬ (0 ≤ (TRT.Metal.new (TRT.Vec3.splat 1) (-1)).fuzz ∧
       (TRT.Metal.new (TRT.Vec3.splat 1) (-1)).fuzz ≤ 1) := by
  rw [TRT.Metal.new]
  norm_num [min_def]

/-- C6 amended: Metal::new clamps fuzz only from above: it stores min(f, 1),
which is at most 1 and equals f whenever f ≤ 1 (in particular on all of
[0, 1]); a negative argument is stored unchanged, below the claimed
interval. -/
theorem metal_new_fuzz_clamped (albedo : TRT.Vec3) (f : ℝ) :
    (TRT.Metal.new albedo f).fuzz = Min.min f 1 ∧
    (TRT.Metal.new albedo f).fuzz ≤ 1 ∧
    (f ≤ 1 → (TRT.Metal.new albedo f).fuzz = f) :=
  ⟨rfl, min_le_right _ _, fun hf => min_eq_left hf⟩

theorem metal_new_fuzz_clamped_witness :
    (TRT.Metal.new (TRT.Vec3.splat 1) (1 / 2)).fuzz = 1 / 2 :=
  (metal_new_fuzz_clamped (TRT.Vec3.splat 1) (1 / 2)).2.2 (by norm_num)

/-- C7: Metal::scatter returns Some exactly when the perturbed reflected
direction has positive dot with the hit normal; on success the scattered
direction is that perturbed direction and the attenuation is the metal's
albedo; a non-positive dot yields None. -/
theorem metal_scatter_spec (m : TRT.Metal) (r_in : TRT.Ray) (rec' : TRT.HitData)
    (h : TRT.Hidden) (st : TRT.HIdx) :
    ((TRT.Metal.scatter m r_in rec' h st).1.isSome ↔
      0 < TRT.Vec3.dot
        (TRT.reflect (TRT.Vec3.unit r_in.direction) rec'.normal + m.fuzz * h.sph st.s)
        rec'.normal) ∧
    (∀ sc attn, (TRT.Metal.scatter m r_in rec' h st).1 = some (sc, attn) →
      attn = m.albedo ∧
      sc.direction =
        TRT.reflect (TRT.Vec3.unit r_in.direction) rec'.normal + m.fuzz * h.sph st.s ∧
      0 < TRT.Vec3.dot sc.direction rec'.normal) := by
  unfold TRT.Metal.scatter TRT.random_in_unit_sphere
  by_cases hd : 0 < TRT.Vec3.dot
      (TRT.reflect (TRT.Vec3.unit r_in.direction) rec'.normal + m.fuzz * h.sph st.s)
      rec'.normal
  · simp only [if_pos hd, Option.isSome_some, true_iff, iff_true]
    refine ⟨hd, ?_⟩
    intro sc attn hsc
    obtain ⟨rfl, rfl⟩ : (⟨rec'.p, _, 0⟩ : TRT.Ray) = sc ∧ m.albedo = attn := by
      have := Option.some.inj hsc
      exact ⟨congrArg Prod.fst this, congrArg Prod.snd this⟩
    exact ⟨rfl, rfl, hd⟩
  · simp only [if_neg hd, Option.isSome_none, Bool.false_eq_true, false_iff]
    exact ⟨hd, fun sc attn hsc => by simp at hsc⟩

/-- Shared evaluation of Metal::scatter at the witness inputs: the unit
direction is (0,0,1), the reflection about the normal (0,0,-1) is (0,0,-1),
fuzz 0 leaves it unperturbed, the dot with the normal is 1 and the scatter
succeeds with time 0. -/
theorem metal_scatter_eval :
    TRT.Metal.scatter TRT.mW TRT.rInW TRT.recW TRT.hiddenW TRT.stW =
      (some (⟨TRT.recW.p, ⟨0, 0, -1⟩, 0⟩, TRT.mW.albedo), ⟨1, 0, 0⟩) := by
  rw [TRT.Metal.scatter]
  have hunit : TRT.Vec3.unit TRT.rInW.direction = ⟨0, 0, 1⟩ := by
    rw [TRT.Vec3.unit, TRT.Vec3.len, TRT.Vec3.squared_len]
    norm_num [TRT.rInW, TRT.Vec3.dot, Real.sqrt_one]
  rw [hunit]
  have hrefl : TRT.reflect ⟨0, 0, 1⟩ TRT.recW.normal = ⟨0, 0, -1⟩ := by
    rw [TRT.reflect]
    norm_num [TRT.recW, TRT.Vec3.dot]
  rw [hrefl]
  rw [TRT.random_in_unit_sphere]
  norm_num [TRT.mW, TRT.recW, TRT.hiddenW, TRT.stW, TRT.Vec3.dot, TRT.Vec3.splat]

theorem metal_scatter_witness :
    (TRT.Metal.scatter TRT.mW TRT.rInW TRT.recW TRT.hiddenW TRT.stW).1.isSome ∧
    TRT.mW.albedo = TRT.mW.albedo ∧
    0 < TRT.Vec3.dot (TRT.Ray.mk TRT.recW.p ⟨0, 0, -1⟩ 0).direction TRT.recW.normal := by
  have h := metal_scatter_spec TRT.mW TRT.rInW TRT.recW TRT.hiddenW TRT.stW
  have h2 := h.2 ⟨TRT.recW.p, ⟨0, 0, -1⟩, 0⟩ TRT.mW.albedo
    (congrArg Prod.fst metal_scatter_eval)
  exact ⟨by rw [congrArg Prod.fst metal_scatter_eval]; rfl, h2.1, h2.2.2⟩

/-- C10: the scattered ray of Metal::scatter always carries time 0 regardless
of the incoming ray's time, while Lambertian::scatter and Isotropic::scatter
always report a scatter whose ray carries the incoming ray's time. -/
theorem scatter_time_spec (m : TRT.Metal) (l : TRT.Lambertian) (iso : TRT.Isotropic)
    (r_in : TRT.Ray) (rec' : TRT.HitData) (h : TRT.Hidden) (st : TRT.HIdx) :
    (∀ sc attn, (TRT.Metal.scatter m r_in rec' h st).1 = some (sc, attn) → sc.time = 0) ∧
    (∃ sc attn st', TRT.Lambertian.scatter l r_in rec' h st = (some (sc, attn), st') ∧
      sc.time = r_in.time) ∧
    (∃ sc attn st', TRT.Isotropic.scatter iso r_in rec' h st = (some (sc, attn), st') ∧
      sc.time = r_in.time) := by
  refine ⟨?_, ⟨_, _, _, rfl, rfl⟩, ⟨_, _, _, rfl, rfl⟩⟩
  intro sc attn hsc
  rw [TRT.Metal.scatter] at hsc
  by_cases hd : 0 < TRT.Vec3.dot
      (TRT.reflect (TRT.Vec3.unit r_in.direction) rec'.normal +
        m.fuzz * (TRT.random_in_unit_sphere h st).1) rec'.normal
  · simp only [if_pos hd] at hsc
    have h2 := Option.some.inj hsc
    simp only [Prod.mk.injEq] at h2
    rw [← h2.1]
  · simp only [if_neg hd] at hsc
    simp at hsc

theorem scatter_time_witness :
    (TRT.Ray.mk TRT.recW.p ⟨0, 0, -1⟩ 0).time = 0 ∧
    (∃ sc attn st',
      TRT.Lambertian.scatter TRT.lW TRT.rInW TRT.recW TRT.hiddenW TRT.stW =
        (some (sc, attn), st') ∧ sc.time = TRT.rInW.time) :=
  ⟨(scatter_time_spec TRT.mW TRT.lW TRT.isoW TRT.rInW TRT.recW TRT.hiddenW TRT.stW).1
      ⟨TRT.recW.p, ⟨0, 0, -1⟩, 0⟩ TRT.mW.albedo (congrArg Prod.fst metal_scatter_eval),
   (scatter_time_spec TRT.mW TRT.lW TRT.isoW TRT.rInW TRT.recW TRT.hiddenW TRT.stW).2.1⟩

/-- Shared evaluation of the stored RotateX bounding box at cos 0, sin 1
around the unit child box: compute_bbox rotates the corners in the (x, z)
plane, giving the box from (0,0,-1) to (1,1,0). -/
theorem rotateX_bbox_eval :
    TRT.rotateX_new_bbox (TRT.AABB.mk ⟨0, 0, 0⟩ ⟨1, 1, 1⟩) 0 1 =
      TRT.AABB.mk ⟨0, 0, -1⟩ ⟨1, 1, 0⟩ := by
  rw [TRT.rotateX_new_bbox, TRT.compute_bbox]
  norm_num [TRT.Vec3.min, TRT.Vec3.max, TRT.Vec3.splat, TRT.f32Max, min_def, max_def]

/-- C2: the claim that every rotation wrapper's stored box contains the image
of the child's box under the wrapper's own forward rotation is right as
specified but wrong in the code: compute_bbox applies the (x, z)-plane
rotation of RotateY to the corners for all three wrappers, while RotateX
rotates points in the (y, z) plane; with cos 0 and sin 1 (a 90 degree
rotation) around a child whose box is the unit cube, the corner (0,1,1) maps
under RotateX's own forward rotation to (0,-1,1), which lies outside the
stored box. -/
theorem rotateX_bbox_code_bug :
    (TRT.AABB.mk ⟨0, 0, 0⟩ ⟨1, 1, 1⟩).contains ⟨0, 1, 1⟩ ∧
    TRT.rotateX_forward 0 1 ⟨0, 1, 1⟩ = ⟨0, -1, 1⟩ ∧
    ¬ (TRT.rotateX_new_bbox (TRT.AABB.mk ⟨0, 0, 0⟩ ⟨1, 1, 1⟩) 0 1).contains
        (TRT.rotateX_forward 0 1 ⟨0, 1, 1⟩) := by
  refine ⟨by norm_num [TRT.AABB.contains], by norm_num [TRT.rotateX_forward], ?_⟩
  rw [rotateX_bbox_eval]
  norm_num [TRT.AABB.contains, TRT.rotateX_forward]

theorem TRT.rec_at_t (s : TRT.MovingSphere) (ray : TRT.Ray) (t : ℝ) :
    (s.rec_at ray t).data.t = t := rfl

/-- The squared distance from the ray point at parameter t to the
interpolated center expands to the quadratic of MovingSphere::hit. -/
theorem TRT.sq_len_point (s : TRT.MovingSphere) (ray : TRT.Ray) (t : ℝ) :
    TRT.Vec3.squared_len (ray.point_at_parameter t - s.center ray.time) =
      s.qa ray * t ^ 2 + 2 * s.qb ray * t + (s.qc ray + s.radius * s.radius) := by
  simp only [TRT.Ray.point_at_parameter, TRT.MovingSphere.qa, TRT.MovingSphere.qb,
    TRT.MovingSphere.qc, TRT.MovingSphere.oc, TRT.Vec3.squared_len, TRT.Vec3.dot,
    TRT.Vec3.sub_comp, TRT.Vec3.add_comp, TRT.Vec3.smul_comp]
  ring

/-- A positive discriminant forces a positive quadratic leading coefficient:
a zero direction would zero out b and hence the discriminant. -/
theorem TRT.qa_pos_of_disc_pos (s : TRT.MovingSphere) (ray : TRT.Ray)
    (hdisc : 0 < s.disc ray) : 0 < s.qa ray := by
  have hnn : 0 ≤ s.qa ray := by
    simp only [TRT.MovingSphere.qa, TRT.Vec3.dot]
    nlinarith [mul_self_nonneg ray.direction.x, mul_self_nonneg ray.direction.y,
      mul_self_nonneg ray.direction.z]
  rcases hnn.lt_or_eq with h | h
  · exact h
  · exfalso
    have hq : s.qa ray = 0 := h.symm
    simp only [TRT.MovingSphere.qa, TRT.Vec3.dot] at hq
    have hx : ray.direction.x = 0 := by
      have : ray.direction.x * ray.direction.x = 0 := by
        nlinarith [mul_self_nonneg ray.direction.x, mul_self_nonneg ray.direction.y,
          mul_self_nonneg ray.direction.z]
      exact mul_self_eq_zero.mp this
    have hy : ray.direction.y = 0 := by
      have : ray.direction.y * ray.direction.y = 0 := by
        nlinarith [mul_self_nonneg ray.direction.x, mul_self_nonneg ray.direction.y,
          mul_self_nonneg ray.direction.z]
      exact mul_self_eq_zero.mp this
    have hz : ray.direction.z = 0 := by
      have : ray.direction.z * ray.direction.z = 0 := by
        nlinarith [mul_self_nonneg ray.direction.x, mul_self_nonneg ray.direction.y,
          mul_self_nonneg ray.direction.z]
      exact mul_self_eq_zero.mp this
    have hqb : s.qb ray = 0 := by
      simp only [TRT.MovingSphere.qb, TRT.Vec3.dot, hx, hy, hz]
      ring
    have hd0 : s.disc ray = 0 := by
      simp only [TRT.MovingSphere.disc, hqb, TRT.MovingSphere.qa, TRT.Vec3.dot, hx, hy, hz]
      ring
    rw [hd0] at hdisc
    exact lt_irrefl 0 hdisc

/-- Any value t with A t = -B - S or A t = -B + S, where S squares to the
discriminant, solves the quadratic A t^2 + 2 B t + C = 0. -/
theorem TRT.root_quadratic (A B C S t : ℝ) (hA : A ≠ 0) (hS : S * S = B * B - A * C)
    (ht : A * t = -B - S ∨ A * t = -B + S) :
    A * t ^ 2 + 2 * B * t + C = 0 := by
  have key : A * (A * t ^ 2 + 2 * B * t + C) =
      (A * t) * (A * t) + 2 * B * (A * t) + A * C := by ring
  rcases ht with h | h
  · have h0 : A * (A * t ^ 2 + 2 * B * t + C) = 0 := by
      rw [key, h]; linear_combination hS
    exact (mul_eq_zero.mp h0).resolve_left hA
  · have h0 : A * (A * t ^ 2 + 2 * B * t + C) = 0 := by
      rw [key, h]; linear_combination hS
    exact (mul_eq_zero.mp h0).resolve_left hA

theorem TRT.near_mul (s : TRT.MovingSphere) (ray : TRT.Ray) (hA : s.qa ray ≠ 0) :
    s.qa ray * s.nearRoot ray = -s.qb ray - Real.sqrt (s.disc ray) := by
  rw [TRT.MovingSphere.nearRoot]
  field_simp

theorem TRT.far_mul (s : TRT.MovingSphere) (ray : TRT.Ray) (hA : s.qa ray ≠ 0) :
    s.qa ray * s.farRoot ray = -s.qb ray + Real.sqrt (s.disc ray) := by
  rw [TRT.MovingSphere.farRoot]
  field_simp

/-- C4: MovingSphere::hit solves the quadratic with the time-interpolated
center evaluated at the ray's time: with positive discriminant and the near
root strictly inside (t_min, t_max) it returns the near-root record; every
returned record has positive discriminant, parameter equal to the near or
far root, strictly inside the interval, minimal among the in-range roots
(the near root is strictly below the far root and is preferred), and its
point lies exactly on the sphere about the interpolated center; and the
query returns no hit exactly when no root lies strictly inside the interval
with positive discriminant. -/
theorem movingSphere_hit_spec (s : TRT.MovingSphere) (ray : TRT.Ray) (t_min t_max : ℝ) :
    (0 < s.disc ray → t_min < s.nearRoot ray → s.nearRoot ray < t_max →
      s.hit ray t_min t_max = some (s.rec_at ray (s.nearRoot ray))) ∧
    (∀ rec', s.hit ray t_min t_max = some rec' →
      0 < s.disc ray ∧
      (rec'.data.t = s.nearRoot ray ∨ rec'.data.t = s.farRoot ray) ∧
      t_min < rec'.data.t ∧ rec'.data.t < t_max ∧
      s.nearRoot ray < s.farRoot ray ∧
      (∀ t', (t' = s.nearRoot ray ∨ t' = s.farRoot ray) → t_min < t' → t' < t_max →
        rec'.data.t ≤ t') ∧
      TRT.Vec3.squared_len (ray.point_at_parameter rec'.data.t - s.center ray.time) =
        s.radius * s.radius) ∧
    (s.hit ray t_min t_max = none ↔
      ¬ (0 < s.disc ray ∧
        ((t_min < s.nearRoot ray ∧ s.nearRoot ray < t_max) ∨
         (t_min < s.farRoot ray ∧ s.farRoot ray < t_max)))) := by
  by_cases hdisc : 0 < s.disc ray
  · have hA : 0 < s.qa ray := TRT.qa_pos_of_disc_pos s ray hdisc
    have hS : 0 < Real.sqrt (s.disc ray) := Real.sqrt_pos.mpr hdisc
    have hnf : s.nearRoot ray < s.farRoot ray := by
      rw [TRT.MovingSphere.nearRoot, TRT.MovingSphere.farRoot]
      exact (div_lt_div_iff_of_pos_right hA).mpr (by linarith)
    have hsq : Real.sqrt (s.disc ray) * Real.sqrt (s.disc ray) =
        s.qb ray * s.qb ray - s.qa ray * s.qc ray := by
      rw [Real.mul_self_sqrt (le_of_lt hdisc), TRT.MovingSphere.disc]
    have hnearq : s.qa ray * s.nearRoot ray ^ 2 + 2 * s.qb ray * s.nearRoot ray +
        s.qc ray = 0 :=
      TRT.root_quadratic _ _ _ _ _ (ne_of_gt hA) hsq
        (Or.inl (TRT.near_mul s ray (ne_of_gt hA)))
    have hfarq : s.qa ray * s.farRoot ray ^ 2 + 2 * s.qb ray * s.farRoot ray +
        s.qc ray = 0 :=
      TRT.root_quadratic _ _ _ _ _ (ne_of_gt hA) hsq
        (Or.inr (TRT.far_mul s ray (ne_of_gt hA)))
    by_cases hnear : s.nearRoot ray < t_max ∧ t_min < s.nearRoot ray
    · have hhit : s.hit ray t_min t_max = some (s.rec_at ray (s.nearRoot ray)) := by
        rw [TRT.MovingSphere.hit, if_pos hdisc, if_pos hnear]
      refine ⟨fun _ _ _ => hhit, ?_, ?_⟩
      · intro rec' hr
        rw [hhit] at hr
        obtain rfl := (Option.some.inj hr).symm
        simp only [TRT.rec_at_t]
        refine ⟨hdisc, Or.inl trivial, hnear.2, hnear.1, hnf, ?_, ?_⟩
        · intro t' ht' h1 h2
          rcases ht' with rfl | rfl
          · exact le_rfl
          · exact le_of_lt hnf
        · rw [TRT.sq_len_point]
          linarith [hnearq]
      · exact iff_of_false (by rw [hhit]; simp)
          (not_not_intro ⟨hdisc, Or.inl ⟨hnear.2, hnear.1⟩⟩)
    · by_cases hfar : s.farRoot ray < t_max ∧ t_min < s.farRoot ray
      · have hhit : s.hit ray t_min t_max = some (s.rec_at ray (s.farRoot ray)) := by
          rw [TRT.MovingSphere.hit, if_pos hdisc, if_neg hnear, if_pos hfar]
        refine ⟨?_, ?_, ?_⟩
        · intro _ h1 h2
          exact absurd ⟨h2, h1⟩ hnear
        · intro rec' hr
          rw [hhit] at hr
          obtain rfl := (Option.some.inj hr).symm
          simp only [TRT.rec_at_t]
          refine ⟨hdisc, Or.inr trivial, hfar.2, hfar.1, hnf, ?_, ?_⟩
          · intro t' ht' h1 h2
            rcases ht' with rfl | rfl
            · exact absurd ⟨h2, h1⟩ hnear
            · exact le_rfl
          · rw [TRT.sq_len_point]
            linarith [hfarq]
        · exact iff_of_false (by rw [hhit]; simp)
            (not_not_intro ⟨hdisc, Or.inr ⟨hfar.2, hfar.1⟩⟩)
      · have hhit : s.hit ray t_min t_max = none := by
          rw [TRT.MovingSphere.hit, if_pos hdisc, if_neg hnear, if_neg hfar]
        refine ⟨?_, ?_, ?_⟩
        · intro _ h1 h2
          exact absurd ⟨h2, h1⟩ hnear
        · intro rec' hr
          rw [hhit] at hr
          exact absurd hr (by simp)
        · refine iff_of_true hhit ?_
          rintro ⟨-, hin | hin⟩
          · exact hnear ⟨hin.2, hin.1⟩
          · exact hfar ⟨hin.2, hin.1⟩
  · have hhit : s.hit ray t_min t_max = none := by
      rw [TRT.MovingSphere.hit, if_neg hdisc]
    refine ⟨fun h _ _ => absurd h hdisc, ?_, ?_⟩
    · intro rec' hr
      rw [hhit] at hr
      exact absurd hr (by simp)
    · exact iff_of_true hhit (fun hcon => hdisc hcon.1)

/-- Shared evaluation: the witness sphere and ray give discriminant
9 - 1 * 8 = 1. -/
theorem movingSphere_disc_eval : TRT.MovingSphere.disc TRT.sphereW TRT.rayW = 1 := by
  norm_num [TRT.MovingSphere.disc, TRT.MovingSphere.qa, TRT.MovingSphere.qb,
    TRT.MovingSphere.qc, TRT.MovingSphere.oc, TRT.MovingSphere.center,
    TRT.sphereW, TRT.rayW, TRT.Vec3.dot, TRT.Vec3.splat]

/-- Shared evaluation: the witness near root is (3 - 1) / 1 = 2. -/
theorem movingSphere_near_eval : TRT.MovingSphere.nearRoot TRT.sphereW TRT.rayW = 2 := by
  rw [TRT.MovingSphere.nearRoot, movingSphere_disc_eval, Real.sqrt_one]
  norm_num [TRT.MovingSphere.qa, TRT.MovingSphere.qb, TRT.MovingSphere.oc,
    TRT.MovingSphere.center, TRT.sphereW, TRT.rayW, TRT.Vec3.dot, TRT.Vec3.splat]

theorem movingSphere_hit_witness :
    TRT.MovingSphere.hit TRT.sphereW TRT.rayW 0 10 =
      some (TRT.MovingSphere.rec_at TRT.sphereW TRT.rayW
        (TRT.MovingSphere.nearRoot TRT.sphereW TRT.rayW)) ∧
    TRT.MovingSphere.nearRoot TRT.sphereW TRT.rayW = 2 :=
  ⟨(movingSphere_hit_spec TRT.sphereW TRT.rayW 0 10).1
      (by rw [movingSphere_disc_eval]; norm_num)
      (by rw [movingSphere_near_eval]; norm_num)
      (by rw [movingSphere_near_eval]; norm_num),
   movingSphere_near_eval⟩

/-- Shared evaluation: every camera ray of the C3 scene is rayC3, leaving
(3/5, 0, -3) toward +z at time 0, for any jitter and any hidden draws; only
the hidden cursor advances. -/
theorem cameraC3_get_ray (u v : ℝ) (h : TRT.Hidden) (st : TRT.HIdx) :
    TRT.Camera.get_ray TRT.cameraC3 u v h st =
      (TRT.rayC3, ⟨st.s, st.d + 1, st.t + 1⟩) := by
  rw [TRT.Camera.get_ray]
  norm_num [TRT.cameraC3, TRT.rayC3, TRT.Vec3.splat]

theorem sqrt_16_25 : Real.sqrt (16 / 25 : ℝ) = 4 / 5 := by
  rw [show (16 / 25 : ℝ) = (4 / 5) ^ 2 by norm_num, Real.sqrt_sq (by norm_num)]

/-- Shared evaluation: the primary C3 ray hits the unit sphere at the near
root 11/5 with point and normal (3/5, 0, -4/5); the discriminant is
9 - 209/25 = 16/25. -/
theorem worldC3_primary :
    TRT.MovingSphere.toWorld TRT.sphereC3 TRT.rayC3 (1 / 1000) TRT.f32Max =
      some ⟨TRT.recC3, TRT.metalC3.material⟩ := by
  have hd : TRT.MovingSphere.disc TRT.sphereC3 TRT.rayC3 = 16 / 25 := by
    norm_num [TRT.MovingSphere.disc, TRT.MovingSphere.qa, TRT.MovingSphere.qb,
      TRT.MovingSphere.qc, TRT.MovingSphere.oc, TRT.MovingSphere.center,
      TRT.sphereC3, TRT.rayC3, TRT.Vec3.dot, TRT.Vec3.splat]
  have hnear : TRT.MovingSphere.nearRoot TRT.sphereC3 TRT.rayC3 = 11 / 5 := by
    rw [TRT.MovingSphere.nearRoot, hd, sqrt_16_25]
    norm_num [TRT.MovingSphere.qa, TRT.MovingSphere.qb, TRT.MovingSphere.oc,
      TRT.MovingSphere.center, TRT.sphereC3, TRT.rayC3, TRT.Vec3.dot, TRT.Vec3.splat]
  rw [TRT.MovingSphere.toWorld]
  rw [TRT.MovingSphere.hit, if_pos (by rw [hd]; norm_num),
    if_pos (by rw [hnear]; exact ⟨by norm_num [TRT.f32Max], by norm_num⟩), hnear]
  norm_num [TRT.MovingSphere.rec_at, TRT.Ray.point_at_parameter, TRT.MovingSphere.center,
    TRT.sphereC3, TRT.rayC3, TRT.recC3, TRT.Vec3.splat]

/-- Shared evaluation: the accepted scattered ray leaves the hit point along
the pure reflection and misses the sphere: it starts on the surface (c = 0)
with b = 4/5 > 0, so the roots -8/5 and 0 are both outside
(0.001, f32::MAX). -/
theorem worldC3_missA :
    TRT.MovingSphere.toWorld TRT.sphereC3 TRT.scatARay (1 / 1000) TRT.f32Max = none := by
  have hd : TRT.MovingSphere.disc TRT.sphereC3 TRT.scatARay = 16 / 25 := by
    norm_num [TRT.MovingSphere.disc, TRT.MovingSphere.qa, TRT.MovingSphere.qb,
      TRT.MovingSphere.qc, TRT.MovingSphere.oc, TRT.MovingSphere.center,
      TRT.sphereC3, TRT.scatARay, TRT.Vec3.dot, TRT.Vec3.splat]
  have hnear : TRT.MovingSphere.nearRoot TRT.sphereC3 TRT.scatARay = -8 / 5 := by
    rw [TRT.MovingSphere.nearRoot, hd, sqrt_16_25]
    norm_num [TRT.MovingSphere.qa, TRT.MovingSphere.qb, TRT.MovingSphere.oc,
      TRT.MovingSphere.center, TRT.sphereC3, TRT.scatARay, TRT.Vec3.dot, TRT.Vec3.splat]
  have hfar : TRT.MovingSphere.farRoot TRT.sphereC3 TRT.scatARay = 0 := by
    rw [TRT.MovingSphere.farRoot, hd, sqrt_16_25]
    norm_num [TRT.MovingSphere.qa, TRT.MovingSphere.qb, TRT.MovingSphere.oc,
      TRT.MovingSphere.center, TRT.sphereC3, TRT.scatARay, TRT.Vec3.dot, TRT.Vec3.splat]
  rw [TRT.MovingSphere.toWorld]
  rw [TRT.MovingSphere.hit, if_pos (by rw [hd]; norm_num),
    if_neg (by rw [hnear]; rintro ⟨-, hcon⟩; norm_num at hcon),
    if_neg (by rw [hfar]; rintro ⟨-, hcon⟩; norm_num at hcon)]

/-- Shared evaluation: Metal::scatter of the C3 metal at the primary hit
under the first hidden sequence: the unit direction (0,0,1) reflects to
(24/25, 0, -7/25), the zero draw leaves it unperturbed, the dot with the
normal is 4/5 > 0 and the scatter is accepted with the white albedo. -/
theorem metalC3_scatterA :
    (TRT.Metal.material TRT.metalC3).scatter TRT.rayC3 TRT.recC3 TRT.hiddenA ⟨0, 1, 1⟩ =
      (some (TRT.scatARay, TRT.Vec3.splat 1), ⟨1, 1, 1⟩) := by
  show TRT.Metal.scatter TRT.metalC3 TRT.rayC3 TRT.recC3 TRT.hiddenA ⟨0, 1, 1⟩ = _
  rw [TRT.Metal.scatter]
  have hunit : TRT.Vec3.unit TRT.rayC3.direction = ⟨0, 0, 1⟩ := by
    rw [TRT.Vec3.unit, TRT.Vec3.len, TRT.Vec3.squared_len]
    norm_num [TRT.rayC3, TRT.Vec3.dot, Real.sqrt_one]
  rw [hunit]
  have hrefl : TRT.reflect ⟨0, 0, 1⟩ TRT.recC3.normal = ⟨24 / 25, 0, -7 / 25⟩ := by
    rw [TRT.reflect]
    norm_num [TRT.recC3, TRT.Vec3.dot]
  rw [hrefl, TRT.random_in_unit_sphere]
  norm_num [TRT.metalC3, TRT.recC3, TRT.hiddenA, TRT.scatARay, TRT.Vec3.dot, TRT.Vec3.splat]

/-- Shared evaluation: under the second hidden sequence the first draw
(-27/50, 0, 18/25), of squared length 81/100 < 1, perturbs the reflection
to (21/50, 0, 11/25), whose dot with the normal is -1/10 ≤ 0, so the
scatter is rejected. -/
theorem metalC3_scatterB :
    (TRT.Metal.material TRT.metalC3).scatter TRT.rayC3 TRT.recC3 TRT.hiddenB ⟨0, 1, 1⟩ =
      (none, ⟨1, 1, 1⟩) := by
  show TRT.Metal.scatter TRT.metalC3 TRT.rayC3 TRT.recC3 TRT.hiddenB ⟨0, 1, 1⟩ = _
  rw [TRT.Metal.scatter]
  have hunit : TRT.Vec3.unit TRT.rayC3.direction = ⟨0, 0, 1⟩ := by
    rw [TRT.Vec3.unit, TRT.Vec3.len, TRT.Vec3.squared_len]
    norm_num [TRT.rayC3, TRT.Vec3.dot, Real.sqrt_one]
  rw [hunit]
  have hrefl : TRT.reflect ⟨0, 0, 1⟩ TRT.recC3.normal = ⟨24 / 25, 0, -7 / 25⟩ := by
    rw [TRT.reflect]
    norm_num [TRT.recC3, TRT.Vec3.dot]
  rw [hrefl, TRT.random_in_unit_sphere]
  dsimp only
  norm_num [TRT.metalC3, TRT.recC3, TRT.hiddenB, TRT.Vec3.dot, TRT.Vec3.splat]

/-- Shared evaluation: the accepted scattered ray misses, so depth 1 returns
the ambient color under the first hidden sequence. -/
theorem compute_colorA1 :
    TRT.compute_color TRT.sphereC3.toWorld (TRT.Vec3.splat 1) 1 TRT.hiddenA
      TRT.scatARay 1 ⟨1, 1, 1⟩ = (TRT.Vec3.splat 1, ⟨1, 1, 1⟩) := by
  rw [TRT.compute_color, worldC3_missA]

/-- Shared evaluation: under the first hidden sequence the metal scatter is
accepted and the escaped ray brings back the white ambient color, so the
pixel radiance is splat 1. -/
theorem compute_colorA_eval :
    TRT.compute_color TRT.sphereC3.toWorld (TRT.Vec3.splat 1) 1 TRT.hiddenA
      TRT.rayC3 0 ⟨0, 1, 1⟩ = (TRT.Vec3.splat 1, ⟨1, 1, 1⟩) := by
  rw [TRT.compute_color, worldC3_primary]
  dsimp only
  rw [dif_pos (show (0 : ℕ) < 1 by norm_num)]
  rw [metalC3_scatterA]
  dsimp only
  rw [compute_colorA1]
  norm_num [TRT.Metal.material, TRT.metalC3, TRT.Vec3.splat]

/-- Shared evaluation: under the second hidden sequence the metal scatter is
rejected and only the black emission remains, so the pixel radiance is
splat 0. -/
theorem compute_colorB_eval :
    TRT.compute_color TRT.sphereC3.toWorld (TRT.Vec3.splat 1) 1 TRT.hiddenB
      TRT.rayC3 0 ⟨0, 1, 1⟩ = (TRT.Vec3.splat 0, ⟨1, 1, 1⟩) := by
  rw [TRT.compute_color, worldC3_primary]
  dsimp only
  rw [dif_pos (show (0 : ℕ) < 1 by norm_num)]
  rw [metalC3_scatterB]
  dsimp only
  norm_num [TRT.Metal.material, TRT.metalC3, TRT.Vec3.splat]

theorem list_range_one : List.range 1 = [0] := rfl

theorem colorByte_one : TRT.colorByte 1 = 255 := by
  rw [TRT.colorByte, max_eq_left (by norm_num), min_eq_right (by norm_num)]
  rw [show ⌊(255 : ℝ)⌋ = 255 by rw [Int.floor_eq_iff]; norm_num]
  rfl

theorem colorByte_zero : TRT.colorByte 0 = 0 := by
  rw [TRT.colorByte, show (255.999 : ℝ) * 0 = 0 by norm_num, max_self,
    min_eq_left (by norm_num)]
  rw [show ⌊(0 : ℝ)⌋ = 0 by rw [Int.floor_eq_iff]; norm_num]
  rfl

/-- Shared evaluation: the full pixel under the first hidden sequence is the
byte triple (255, 255, 255). -/
theorem pixel_colorA_eval :
    TRT.Scene.pixel_color TRT.sceneC3 (0, 0) TRT.rngC3 TRT.hiddenA = (255, 255, 255) := by
  rw [TRT.Scene.pixel_color]
  simp only [TRT.sceneC3, list_range_one, List.foldl_cons, List.foldl_nil,
    TRT.RngState.gen, TRT.rngC3]
  rw [cameraC3_get_ray]
  dsimp only
  norm_num
  rw [compute_colorA_eval]
  norm_num [TRT.Vec3.splat, TRT.Vec3.sqrtV, TRT.vec_to_color, Real.sqrt_one, colorByte_one]

/-- Shared evaluation: the full pixel under the second hidden sequence is
the byte triple (0, 0, 0). -/
theorem pixel_colorB_eval :
    TRT.Scene.pixel_color TRT.sceneC3 (0, 0) TRT.rngC3 TRT.hiddenB = (0, 0, 0) := by
  rw [TRT.Scene.pixel_color]
  simp only [TRT.sceneC3, list_range_one, List.foldl_cons, List.foldl_nil,
    TRT.RngState.gen, TRT.rngC3]
  rw [cameraC3_get_ray]
  dsimp only
  norm_num
  rw [compute_colorB_eval]
  norm_num [TRT.Vec3.splat, TRT.Vec3.sqrtV, TRT.vec_to_color, Real.sqrt_zero, colorByte_zero]

/-- C3 counterexample: Scene::pixel_color is not determined by the explicit
rng capability alone.  The C3 scene and pixel, fed the very same explicit
rng sequence, produce the colors (255,255,255) and (0,0,0) under two hidden
thread-local sequences, because the metal scatter draws come from
rand::thread_rng() rather than the rng parameter.  The execution consumes
exactly the index-0 draws of each stream (one lens point, one shutter time,
one unit-sphere point; every later stream value is zero), and each consumed
draw is producible by the source's rejection sampling: the unit-sphere
draws have squared lengths 0 and 81/100, both below 1, the lens draws lie
inside the unit disk and the shutter draws in [0, 1). -/
theorem pixel_color_hidden_dependence :
    TRT.Vec3.squared_len (TRT.hiddenA.sph 0) < 1 ∧
    TRT.Vec3.squared_len (TRT.hiddenB.sph 0) < 1 ∧
    TRT.Vec3.squared_len (TRT.hiddenA.dsk 0) < 1 ∧
    TRT.Vec3.squared_len (TRT.hiddenB.dsk 0) < 1 ∧
    0 ≤ TRT.hiddenA.tm 0 ∧ TRT.hiddenA.tm 0 < 1 ∧
    0 ≤ TRT.hiddenB.tm 0 ∧ TRT.hiddenB.tm 0 < 1 ∧
    TRT.Scene.pixel_color TRT.sceneC3 (0, 0) TRT.rngC3 TRT.hiddenA ≠
      TRT.Scene.pixel_color TRT.sceneC3 (0, 0) TRT.rngC3 TRT.hiddenB := by
  refine ⟨by norm_num [TRT.hiddenA, TRT.Vec3.squared_len, TRT.Vec3.dot, TRT.Vec3.splat],
    by norm_num [TRT.hiddenB, TRT.Vec3.squared_len, TRT.Vec3.dot],
    by norm_num [TRT.hiddenA, TRT.Vec3.squared_len, TRT.Vec3.dot, TRT.Vec3.splat],
    by norm_num [TRT.hiddenB, TRT.Vec3.squared_len, TRT.Vec3.dot, TRT.Vec3.splat],
    by norm_num [TRT.hiddenA], by norm_num [TRT.hiddenA],
    by norm_num [TRT.hiddenB], by norm_num [TRT.hiddenB], ?_⟩
  rw [pixel_colorA_eval, pixel_colorB_eval]
  decide

/-- C3 amended: the per-pixel jitter draws do come from the explicitly
passed rng capability, but the lens and shutter sampling of the camera and
the scatter sampling of the materials come from the hidden thread-local
source, so identical explicit rng sequences alone do not determine the
color (the counterexample above); two evaluations of Scene::pixel_color for
the same scene and pixel produce identical colors whenever fed identical
explicit rng sequences and identical thread-local sequences. -/
theorem pixel_color_deterministic (s : TRT.Scene) (xy : ℕ × ℕ)
    (r₁ r₂ : TRT.RngState) (h₁ h₂ : TRT.Hidden) (hr : r₁ = r₂) (hh : h₁ = h₂) :
    TRT.Scene.pixel_color s xy r₁ h₁ = TRT.Scene.pixel_color s xy r₂ h₂ := by
  rw [hr, hh]

theorem pixel_color_deterministic_witness :
    TRT.Scene.pixel_color TRT.sceneC3 (0, 0) TRT.rngC3 TRT.hiddenA =
      TRT.Scene.pixel_color TRT.sceneC3 (0, 0) TRT.rngC3 TRT.hiddenA :=
  pixel_color_deterministic TRT.sceneC3 (0, 0) TRT.rngC3 TRT.rngC3
    TRT.hiddenA TRT.hiddenA rfl rfl
